import Mathlib

/-!
Shallow embedding of the Zonk hand-history observer program
(`pregunta5.py`): an `Observable` subject keeping an ordered list of
observer callbacks, a `ZonkHandHistory` subject recording dice hands,
and two concrete observers (`SaveZonkHand`, `ThreePairZonkHand`).

The dice collaborator (`dice.Dice`, external to this repository) is
modelled as a deterministic stream of hands together with the index of
the next draw and the current hand, mirroring its interface
(`roll()` updates and exposes `dice`).

Observers are Python objects held by reference in the subject's
`_observers` list; we model each object as an identity (`Nat`) and keep
the per-object mutable state in a map `Nat → ObsState`.  A `mock`
observer models a benign no-op callback (such as `unittest.mock.Mock`),
and a `failing` observer models a callback that raises.  Exceptions are
modelled explicitly: each step result records whether an exception
propagated, and the state mutations that happened before the raise are
kept (Python does not roll them back).
-/

/-- Source alias `Hand = List[int]`. -/
abbrev Hand := List Int

/-- The external dice collaborator: a deterministic stream of hands,
the index of the next draw, and the current hand exposed as `dice`. -/
structure Dice where
  stream : Nat → Hand
  idx : Nat
  dice : Hand

/-- Method `Dice.roll()`: draw the next hand from the stream and expose it. -/
def Dice.roll (d : Dice) : Dice :=
  { d with idx := d.idx + 1, dice := d.stream d.idx }

/-- The record printed by `SaveZonkHand.__call__` (the `time` field is
wall-clock and not modelled). -/
structure SaveRecord where
  player : String
  sequence : Nat
  hands : String
deriving DecidableEq, Repr

/-- Observable side effects of an observer callback: the record emitted
by `SaveZonkHand` and the message printed by `ThreePairZonkHand`. -/
inductive Output where
  | save (r : SaveRecord)
  | zonkMsg
deriving DecidableEq, Repr

/-- The mutable state owned by one observer object. -/
inductive ObsState where
  | save (count : Nat)
  | threePair (zonked : Bool)
  | mock
  | failing
deriving DecidableEq, Repr

/-- Serialization `json.dumps` on a list of lists of ints, as Python formats it:
elements separated by a comma and a space. -/
def jsonDumpsHand (h : Hand) : String :=
  "[" ++ String.intercalate (", ") (h.map toString) ++ "]"

/-- Serialization `json.dumps(self.hand.rolls)` from `SaveZonkHand.__call__`. -/
def jsonDumps (rolls : List Hand) : String :=
  "[" ++ String.intercalate (", ") (rolls.map jsonDumpsHand) ++ "]"

/-- The detection expression of `ThreePairZonkHand.__call__`:
`distinct_values = set(last_roll)`;
`len(distinct_values) == 3 and all(last_roll.count(v) == 2 for v in distinct_values)`. -/
def threePairTest (last_roll : Hand) : Bool :=
  let distinct_values := last_roll.dedup
  distinct_values.length == 3 &&
    distinct_values.all (fun v => last_roll.count v == 2)

/-- One observer callback (`__call__`), reading the subject's current
`player` and `rolls` through the observer's back-reference.  Returns the
observer's new state and its emitted outputs, or `Except.error` when the
callback raises.  `ThreePairZonkHand` reads `rolls[-1]`, which raises on
an empty list; the `failing` observer always raises. -/
def obsCall (os : ObsState) (player : String) (rolls : List Hand) :
    Except Unit (ObsState × List Output) :=
  match os with
  | .save count =>
      let count' := count + 1
      .ok (.save count',
        [.save ⟨player, count', jsonDumps rolls⟩])
  | .threePair _ =>
      match rolls.getLast? with
      | none => .error ()
      | some last_roll =>
          let zonked := threePairTest last_roll
          .ok (.threePair zonked, if zonked then [.zonkMsg] else [])
  | .mock => .ok (.mock, [])
  | .failing => .error ()

/-- Point update of the observer-state map. -/
def updMap (st : Nat → ObsState) (i : Nat) (v : ObsState) : Nat → ObsState :=
  fun j => if j = i then v else st j

/-- Result of one notification round. -/
structure NotifyResult where
  obsState : Nat → ObsState
  outputs : List Output
  invoked : List Nat
  raised : Bool

/-- Method `Observable._notify_observers`: `for observer in self._observers:
observer()`.  Invokes callbacks left to right; a raising callback stops
the loop and the exception propagates (`raised = true`); state updates
made before the raise are kept.  `invoked` records, in order, the
observers whose callback was entered. -/
def notifyGo (player : String) (rolls : List Hand) :
    List Nat → (Nat → ObsState) → NotifyResult
  | [], st => ⟨st, [], [], false⟩
  | i :: rest, st =>
      match obsCall (st i) player rolls with
      | .error _ => ⟨st, [], [i], true⟩
      | .ok (os', out) =>
          let r := notifyGo player rolls rest (updMap st i os')
          ⟨r.obsState, out ++ r.outputs, i :: r.invoked, r.raised⟩

/-- The subject: `Observable` state (the `_observers` list) together
with `ZonkHandHistory` state.  `rolls = none` models the annotated but
uninitialized `self.rolls` attribute before the first `start()`. -/
structure ZonkHandHistory where
  player : String
  dice_set : Dice
  rolls : Option (List Hand)
  observers : List Nat
  obsState : Nat → ObsState

namespace ZonkHandHistory

/-- Method `Observable.attach`: append, no duplicate check. -/
def attach (s : ZonkHandHistory) (i : Nat) : ZonkHandHistory :=
  { s with observers := s.observers ++ [i] }

/-- Python `list.remove`: drop the first matching element, or signal
`ValueError` (`none`) when absent. -/
def removeFirst : List Nat → Nat → Option (List Nat)
  | [], _ => none
  | x :: xs, o => if x = o then some xs else (removeFirst xs o).map (x :: ·)

/-- Method `Observable.detach`: `self._observers.remove(observer)`.  Raises
(here: `Except.error`) when the observer is not registered; the
registration list is then left unchanged. -/
def detach (s : ZonkHandHistory) (i : Nat) : Except Unit ZonkHandHistory :=
  match removeFirst s.observers i with
  | none => .error ()
  | some l => .ok { s with observers := l }

/-- Result of one `start()` or `roll()` call: the post-state, the
returned hand (`none` when an exception propagated to the caller), the
outputs emitted, the observers invoked, and whether the call raised. -/
structure StepResult where
  sys : ZonkHandHistory
  ret : Option Hand
  outputs : List Output
  invoked : List Nat
  raised : Bool

/-- Method `ZonkHandHistory.start`: roll the dice, overwrite `rolls` with the
single new hand, notify, return the hand. -/
def start (s : ZonkHandHistory) : StepResult :=
  let d := s.dice_set.roll
  let rolls' := [d.dice]
  let r := notifyGo s.player rolls' s.observers s.obsState
  { sys := { s with dice_set := d, rolls := some rolls', obsState := r.obsState },
    ret := if r.raised then none else some d.dice,
    outputs := r.outputs, invoked := r.invoked, raised := r.raised }

/-- Method `ZonkHandHistory.roll`: roll the dice, then append to `rolls`.
When `rolls` is uninitialized the append raises (`AttributeError`)
before any hand is recorded or any observer notified; the dice were
already rolled.  Otherwise append the new hand, notify, return it. -/
def roll (s : ZonkHandHistory) : StepResult :=
  let d := s.dice_set.roll
  match s.rolls with
  | none =>
      { sys := { s with dice_set := d }, ret := none,
        outputs := [], invoked := [], raised := true }
  | some rs =>
      let rolls' := rs ++ [d.dice]
      let r := notifyGo s.player rolls' s.observers s.obsState
      { sys := { s with dice_set := d, rolls := some rolls', obsState := r.obsState },
        ret := if r.raised then none else some d.dice,
        outputs := r.outputs, invoked := r.invoked, raised := r.raised }

end ZonkHandHistory

/-- Constructor `SaveZonkHand.__init__`: `self.count = 0`. -/
def SaveZonkHand.init : ObsState := .save 0

/-- Constructor `ThreePairZonkHand.__init__`: `self.zonked = False`. -/
def ThreePairZonkHand.init : ObsState := .threePair false

/-- The `zonked` attribute of a `ThreePairZonkHand` observer. -/
def ObsState.zonked? : ObsState → Option Bool
  | .threePair z => some z
  | _ => none

/-- A script of calls on the subject. -/
inductive Call where
  | start
  | roll
deriving DecidableEq, Repr

/-- Run one scripted call. -/
def runCall (s : ZonkHandHistory) : Call → ZonkHandHistory.StepResult
  | .start => s.start
  | .roll => s.roll

/-- Run a script, accumulating the outputs emitted along the way. -/
def runTrace (s : ZonkHandHistory) : List Call → ZonkHandHistory × List Output
  | [] => (s, [])
  | c :: cs =>
      let r := runCall s c
      let p := runTrace r.sys cs
      (p.1, r.outputs ++ p.2)

/-- Run a script, keeping only the final state. -/
def runScript (s : ZonkHandHistory) (cs : List Call) : ZonkHandHistory :=
  (runTrace s cs).1

def sampleStream : Nat → Hand :=
  fun n => if n = 0 then [1,1,2,3,6,6] else [2,2,4,4,5,5]

def sampleDice : Dice := ⟨sampleStream, 0, []⟩

def sampleFresh : ZonkHandHistory := ⟨"Bo", sampleDice, none, [], fun _ => .mock⟩

def sampleMock : ZonkHandHistory := ⟨"Bo", sampleDice, none, [3], fun _ => .mock⟩

def sampleSave : ZonkHandHistory := ⟨"Bo", sampleDice, none, [5], fun _ => .save 0⟩

def sampleActive : ZonkHandHistory :=
  ⟨"Bo", sampleDice, some [[1,1,2,3,6,6]], [3], fun _ => .mock⟩

def sampleDetector : ZonkHandHistory :=
  ⟨"Bo", sampleDice, some [[1,1,2,3,6,6]], [2], fun _ => .threePair false⟩

def sampleFailing : ZonkHandHistory :=
  ⟨"Bo", sampleDice, some [[1,1,2,3,6,6]], [3, 7],
    fun j => if j = 7 then .failing else .mock⟩

theorem threePairTest_iff (h : Hand) :
    threePairTest h = true ↔
      h.toFinset.card = 3 ∧ ∀ v ∈ h.toFinset, h.count v = 2 := by
  simp [threePairTest, List.all_eq_true, List.card_toFinset,
    List.mem_toFinset, List.mem_dedup]

theorem threePairTest_perm {h h' : Hand} (hp : h.Perm h') :
    threePairTest h = threePairTest h' := by
  have hfs : h.toFinset = h'.toFinset := by
    ext v
    simp [List.mem_toFinset, hp.mem_iff]
  rw [Bool.eq_iff_iff, threePairTest_iff, threePairTest_iff, hfs]
  constructor
  · rintro ⟨hc, ha⟩
    exact ⟨hc, fun v hv => (hp.count_eq v).symm.trans (ha v hv)⟩
  · rintro ⟨hc, ha⟩
    exact ⟨hc, fun v hv => (hp.count_eq v).trans (ha v hv)⟩

theorem obsCall_threePair_eq (z : Bool) (p : String) (rolls : List Hand)
    (h : Hand) (hlast : rolls.getLast? = some h) :
    obsCall (.threePair z) p rolls =
      .ok (.threePair (threePairTest h),
        if threePairTest h then [.zonkMsg] else []) := by
  simp [obsCall, hlast]

/-- C1: when `ThreePairZonkHand` is notified with `h` the most recently
appended hand, `zonked` is overwritten with true iff `h` has exactly 3
distinct face values each occurring exactly 2 times; `[1,1,2,3,6,6]`
fails, `[2,2,4,4,5,5]` passes, and the test depends only on the
multiset of values. -/
theorem C1_three_pair_detection (rolls : List Hand) (h : Hand)
    (hlast : rolls.getLast? = some h) (z : Bool) (p : String) :
    obsCall (.threePair z) p rolls =
      .ok (.threePair (threePairTest h),
        if threePairTest h then [.zonkMsg] else []) ∧
    (threePairTest h = true ↔
      h.toFinset.card = 3 ∧ ∀ v ∈ h.toFinset, h.count v = 2) ∧
    (∀ h', h.Perm h' → threePairTest h = threePairTest h') ∧
    threePairTest [1,1,2,3,6,6] = false ∧
    threePairTest [2,2,4,4,5,5] = true :=
  ⟨obsCall_threePair_eq z p rolls h hlast, threePairTest_iff h,
    fun _ hp => threePairTest_perm hp, by decide, by decide⟩

theorem C1_three_pair_detection_witness :
    obsCall (.threePair false) "Bo" [[2,2,4,4,5,5]] =
      .ok (.threePair true, [.zonkMsg]) := by
  have h := (C1_three_pair_detection [[2,2,4,4,5,5]] [2,2,4,4,5,5]
    rfl false "Bo").1
  simpa [show threePairTest [2,2,4,4,5,5] = true from by decide] using h

theorem obsCall_ok_of_notFailing (os : ObsState) (p : String)
    (rolls : List Hand) (hos : os ≠ .failing) (hr : rolls ≠ []) :
    ∃ os' out, obsCall os p rolls = .ok (os', out) ∧ os' ≠ .failing := by
  cases os with
  | save c => exact ⟨_, _, rfl, by simp⟩
  | threePair z =>
      obtain ⟨h, hlast⟩ : ∃ h, rolls.getLast? = some h := by
        cases hh : rolls.getLast? with
        | none => exact absurd (List.getLast?_eq_none_iff.mp hh) hr
        | some h => exact ⟨h, rfl⟩
      exact ⟨_, _, obsCall_threePair_eq z p rolls h hlast, by simp⟩
  | mock => exact ⟨_, _, rfl, by simp⟩
  | failing => exact absurd rfl hos

theorem notifyGo_no_fail (p : String) (rolls : List Hand) (hr : rolls ≠ []) :
    ∀ (obs : List Nat) (st : Nat → ObsState),
      (∀ i ∈ obs, st i ≠ .failing) →
      (notifyGo p rolls obs st).invoked = obs ∧
      (notifyGo p rolls obs st).raised = false
  | [], st, _ => by simp [notifyGo]
  | i :: rest, st, hnf => by
      obtain ⟨os', out, hcall, hos'⟩ :=
        obsCall_ok_of_notFailing (st i) p rolls (hnf i (by simp)) hr
      have hrest : ∀ j ∈ rest, updMap st i os' j ≠ ObsState.failing := by
        intro j hj
        by_cases hji : j = i
        · simpa [updMap, hji] using hos'
        · simpa [updMap, hji] using hnf j (by simp [hj])
      have ih := notifyGo_no_fail p rolls hr rest (updMap st i os') hrest
      simp [notifyGo, hcall, ih.1, ih.2]

theorem foldl_attach (seq : List Nat) :
    ∀ s : ZonkHandHistory,
      (seq.foldl ZonkHandHistory.attach s).observers = s.observers ++ seq := by
  induction seq with
  | nil => simp
  | cons i rest ih =>
      intro s
      simp [List.foldl_cons, ih, ZonkHandHistory.attach]

/-- C2: after any sequence of attach calls the registration list is the
prior list extended by the attached observers in order (no duplicate
check), and a notification round with no failing callback invokes
exactly that list, in order, once per entry. -/
theorem C2_notify_order (s : ZonkHandHistory) (seq : List Nat) (p : String)
    (rolls : List Hand) (st : Nat → ObsState) (hr : rolls ≠ [])
    (hnf : ∀ i ∈ s.observers ++ seq, st i ≠ .failing) :
    (seq.foldl ZonkHandHistory.attach s).observers = s.observers ++ seq ∧
    (notifyGo p rolls (seq.foldl ZonkHandHistory.attach s).observers st).invoked
      = s.observers ++ seq ∧
    (notifyGo p rolls (seq.foldl ZonkHandHistory.attach s).observers st).raised
      = false := by
  have hobs := foldl_attach seq s
  have h := notifyGo_no_fail p rolls hr (s.observers ++ seq) st hnf
  rw [hobs]
  exact ⟨rfl, h.1, h.2⟩

theorem C2_notify_order_witness :
    (notifyGo "Bo" [[2,2,4,4,5,5]]
      (([7, 7, 9].foldl ZonkHandHistory.attach
        ⟨"Bo", ⟨fun _ => [], 0, []⟩, none, [3], fun _ => .mock⟩).observers)
      (fun _ => .mock)).invoked = [3, 7, 7, 9] := by
  exact (C2_notify_order ⟨"Bo", ⟨fun _ => [], 0, []⟩, none, [3], fun _ => .mock⟩
    [7, 7, 9] "Bo" [[2,2,4,4,5,5]] (fun _ => .mock) (by simp)
    (by intro i _; simp)).2.1

theorem notifyGo_not_mem (p : String) (rolls : List Hand) :
    ∀ (obs : List Nat) (st : Nat → ObsState) (i : Nat), i ∉ obs →
      (notifyGo p rolls obs st).obsState i = st i
  | [], _, _, _ => rfl
  | j :: rest, st, i, hmem => by
      have hij : i ≠ j := fun h => hmem (h ▸ List.mem_cons_self j rest)
      have hrest : i ∉ rest := fun h => hmem (List.mem_cons_of_mem j h)
      cases hcall : obsCall (st j) p rolls with
      | error e => simp [notifyGo, hcall]
      | ok v =>
          simp only [notifyGo, hcall]
          rw [notifyGo_not_mem p rolls rest (updMap st j v.1) i hrest]
          simp [updMap, hij]

theorem notifyGo_threePair_state (p : String) (rolls : List Hand)
    (h : Hand) (hlast : rolls.getLast? = some h) :
    ∀ (obs : List Nat) (st : Nat → ObsState) (i : Nat) (z : Bool),
      (∀ j ∈ obs, st j ≠ .failing) → i ∈ obs → st i = .threePair z →
      (notifyGo p rolls obs st).obsState i = .threePair (threePairTest h)
  | [], _, _, _, _, hmem, _ => absurd hmem (List.not_mem_nil _)
  | j :: rest, st, i, z, hnf, hmem, hst => by
      have hr : rolls ≠ [] := by
        intro hnil
        rw [hnil] at hlast
        simp at hlast
      obtain ⟨os', out, hcall, hos'⟩ :=
        obsCall_ok_of_notFailing (st j) p rolls (hnf j (by simp)) hr
      have hrest : ∀ k ∈ rest, updMap st j os' k ≠ ObsState.failing := by
        intro k hk
        by_cases hkj : k = j
        · simpa [updMap, hkj] using hos'
        · simpa [updMap, hkj] using hnf k (by simp [hk])
      simp only [notifyGo, hcall]
      by_cases hij : i = j
      · subst hij
        have hos'' : os' = .threePair (threePairTest h) := by
          rw [hst] at hcall
          rw [obsCall_threePair_eq z p rolls h hlast] at hcall
          exact (congrArg Prod.fst (Except.ok.inj hcall)).symm
        by_cases hirest : i ∈ rest
        · exact notifyGo_threePair_state p rolls h hlast rest
            (updMap st i os') i (threePairTest h) hrest hirest
            (by simp [updMap, hos''])
        · rw [notifyGo_not_mem p rolls rest (updMap st i os') i hirest]
          simp [updMap, hos'']
      · have hirest : i ∈ rest := by
          rcases List.mem_cons.mp hmem with hh | hh
          · exact absurd hh hij
          · exact hh
        exact notifyGo_threePair_state p rolls h hlast rest
          (updMap st j os') i z hrest hirest (by simp [updMap, hij, hst])

/-- C3: the calls `start()` and `roll()` fire exactly one notification round over
the registered observers, strictly after the new hand is appended and
visible in `rolls`; a threePair observer therefore sees the new hand as
`rolls[-1]`, and `rolls` is non-empty after any `start`. -/
theorem C3_notify_after_append (s : ZonkHandHistory)
    (hnf : ∀ i ∈ s.observers, s.obsState i ≠ .failing) :
    (s.start.sys.rolls = some [s.dice_set.roll.dice] ∧
     s.start.invoked = s.observers ∧
     s.start.raised = false ∧
     s.start.ret = some s.dice_set.roll.dice ∧
     (∀ i ∈ s.observers, ∀ z, s.obsState i = .threePair z →
        s.start.sys.obsState i =
          .threePair (threePairTest s.dice_set.roll.dice))) ∧
    (∀ rs, s.rolls = some rs →
      s.roll.sys.rolls = some (rs ++ [s.dice_set.roll.dice]) ∧
      s.roll.invoked = s.observers ∧
      s.roll.raised = false ∧
      s.roll.ret = some s.dice_set.roll.dice ∧
      (∀ i ∈ s.observers, ∀ z, s.obsState i = .threePair z →
         s.roll.sys.obsState i =
           .threePair (threePairTest s.dice_set.roll.dice))) := by
  constructor
  · have hno := notifyGo_no_fail s.player [s.dice_set.roll.dice] (by simp)
      s.observers s.obsState hnf
    refine ⟨rfl, hno.1, hno.2, ?_, ?_⟩
    · simp [ZonkHandHistory.start, hno.2]
    · intro i hi z hz
      exact notifyGo_threePair_state s.player [s.dice_set.roll.dice]
        s.dice_set.roll.dice rfl s.observers s.obsState i z hnf hi hz
  · intro rs hrs
    have hlast : (rs ++ [s.dice_set.roll.dice]).getLast? =
        some s.dice_set.roll.dice := List.getLast?_concat rs
    have hno := notifyGo_no_fail s.player (rs ++ [s.dice_set.roll.dice])
      (by simp) s.observers s.obsState hnf
    refine ⟨?_, ?_, ?_, ?_, ?_⟩
    · simp [ZonkHandHistory.roll, hrs]
    · simpa [ZonkHandHistory.roll, hrs] using hno.1
    · simpa [ZonkHandHistory.roll, hrs] using hno.2
    · simp [ZonkHandHistory.roll, hrs, hno.2]
    · intro i hi z hz
      have := notifyGo_threePair_state s.player (rs ++ [s.dice_set.roll.dice])
        s.dice_set.roll.dice hlast s.observers s.obsState i z hnf hi hz
      simpa [ZonkHandHistory.roll, hrs] using this

theorem runScript_cons (s : ZonkHandHistory) (c : Call) (cs : List Call) :
    runScript s (c :: cs) = runScript (runCall s c).sys cs := rfl

theorem roll_rolls_eq (s : ZonkHandHistory) (rs : List Hand)
    (hrs : s.rolls = some rs) :
    s.roll.sys.rolls = some (rs ++ [s.dice_set.roll.dice]) := by
  simp [ZonkHandHistory.roll, hrs]

theorem start_rolls_eq (s : ZonkHandHistory) :
    s.start.sys.rolls = some [s.dice_set.roll.dice] := rfl

theorem runScript_replicate_roll_length :
    ∀ (n : Nat) (s : ZonkHandHistory) (rs : List Hand), s.rolls = some rs →
      ∃ l, (runScript s (List.replicate n .roll)).rolls = some l ∧
        l.length = rs.length + n
  | 0, s, rs, hrs => ⟨rs, by simpa [runScript, runTrace] using hrs, rfl⟩
  | n + 1, s, rs, hrs => by
      rw [List.replicate_succ, runScript_cons]
      obtain ⟨l, hl, hlen⟩ := runScript_replicate_roll_length n
        (runCall s .roll).sys (rs ++ [s.dice_set.roll.dice])
        (roll_rolls_eq s rs hrs)
      refine ⟨l, hl, ?_⟩
      rw [hlen]
      simp
      omega

/-- C4: a script of one `start` followed by `n` `roll` calls leaves
`rolls` with exactly `n + 1` entries; each `roll` extends the prior
`rolls` by exactly one hand at the end, and `start` resets it to a
single hand. -/
theorem C4_append_only_log (s : ZonkHandHistory) (n : Nat) :
    (∀ rs, s.rolls = some rs →
       s.roll.sys.rolls = some (rs ++ [s.dice_set.roll.dice])) ∧
    s.start.sys.rolls = some [s.dice_set.roll.dice] ∧
    ∃ l, (runScript s (.start :: List.replicate n .roll)).rolls = some l ∧
      l.length = n + 1 := by
  refine ⟨fun rs hrs => roll_rolls_eq s rs hrs, rfl, ?_⟩
  rw [runScript_cons]
  obtain ⟨l, hl, hlen⟩ := runScript_replicate_roll_length n
    (runCall s .start).sys [s.dice_set.roll.dice] rfl
  refine ⟨l, hl, ?_⟩
  rw [hlen]
  simp
  omega

/-- C5: a call to `start()` always asks the dice collaborator for a fresh hand,
overwrites `rolls` with exactly that single newest hand (discarding any
prior history, of any length), and returns that hand when no observer
raises. -/
theorem C5_restart_resets (s : ZonkHandHistory) (rs : List Hand)
    (hrs : s.rolls = some rs) (hlen : 1 ≤ rs.length) :
    s.start.sys.dice_set = s.dice_set.roll ∧
    s.start.sys.rolls = some [s.dice_set.roll.dice] ∧
    (∀ l, s.start.sys.rolls = some l → l.length = 1) ∧
    (s.start.raised = false → s.start.ret = some s.dice_set.roll.dice) := by
  refine ⟨rfl, rfl, ?_, ?_⟩
  · intro l hl
    have : l = [s.dice_set.roll.dice] := by
      have := hl.symm.trans (start_rolls_eq s)
      exact Option.some_inj.mp this
    simp [this]
  · intro hraise
    simp [ZonkHandHistory.start] at hraise ⊢
    simp [hraise]

theorem roll_single_save (s : ZonkHandHistory) (i c : Nat) (rs : List Hand)
    (hobs : s.observers = [i]) (hst : s.obsState i = .save c)
    (hrs : s.rolls = some rs) :
    s.roll.sys.player = s.player ∧
    s.roll.sys.observers = [i] ∧
    s.roll.sys.obsState i = .save (c + 1) ∧
    s.roll.sys.rolls = some (rs ++ [s.dice_set.roll.dice]) ∧
    s.roll.outputs = [.save ⟨s.player, c + 1,
      jsonDumps (rs ++ [s.dice_set.roll.dice])⟩] := by
  refine ⟨?_, ?_, ?_, ?_, ?_⟩ <;>
    simp [ZonkHandHistory.roll, hrs, hobs, hst, notifyGo, obsCall, updMap]

theorem start_single_save (s : ZonkHandHistory) (i c : Nat)
    (hobs : s.observers = [i]) (hst : s.obsState i = .save c) :
    s.start.sys.player = s.player ∧
    s.start.sys.observers = [i] ∧
    s.start.sys.obsState i = .save (c + 1) ∧
    s.start.sys.rolls = some [s.dice_set.roll.dice] ∧
    s.start.outputs = [.save ⟨s.player, c + 1,
      jsonDumps [s.dice_set.roll.dice]⟩] := by
  refine ⟨?_, ?_, ?_, ?_, ?_⟩ <;>
    simp [ZonkHandHistory.start, hobs, hst, notifyGo, obsCall, updMap]

theorem runTrace_nil (s : ZonkHandHistory) : runTrace s [] = (s, []) := rfl

theorem runTrace_cons (s : ZonkHandHistory) (c : Call) (cs : List Call) :
    runTrace s (c :: cs) =
      ((runTrace (runCall s c).sys cs).1,
        (runCall s c).outputs ++ (runTrace (runCall s c).sys cs).2) := rfl

theorem runTrace_replicate_roll_save :
    ∀ (j : Nat) (s : ZonkHandHistory) (i c : Nat) (rs : List Hand),
      s.observers = [i] → s.obsState i = .save c → s.rolls = some rs →
      (runTrace s (List.replicate j .roll)).1.player = s.player ∧
      (runTrace s (List.replicate j .roll)).1.observers = [i] ∧
      (runTrace s (List.replicate j .roll)).1.obsState i = .save (c + j) ∧
      (runTrace s (List.replicate j .roll)).2.length = j ∧
      ∃ l, (runTrace s (List.replicate j .roll)).1.rolls = some l ∧
        l.length = rs.length + j ∧
        ((j = 0 ∧ (runTrace s (List.replicate j .roll)).2 = [] ∧ l = rs) ∨
         (0 < j ∧ (runTrace s (List.replicate j .roll)).2.getLast? =
            some (.save ⟨s.player, c + j, jsonDumps l⟩)))
  | 0, s, i, c, rs, hobs, hst, hrs => by
      refine ⟨rfl, hobs, ?_, rfl, rs, hrs, by simp, Or.inl ⟨rfl, rfl, rfl⟩⟩
      simpa using hst
  | j + 1, s, i, c, rs, hobs, hst, hrs => by
      obtain ⟨hp, ho, hoc, hrl, hout⟩ := roll_single_save s i c rs hobs hst hrs
      rw [List.replicate_succ, runTrace_cons]
      have ih := runTrace_replicate_roll_save j s.roll.sys i (c + 1)
        (rs ++ [s.dice_set.roll.dice]) ho hoc hrl
      obtain ⟨ihp, iho, ihoc, ihlen, l, ihl, ihllen, ihlast⟩ := ih
      have hrcall : (runCall s .roll) = s.roll := rfl
      rw [hrcall]
      refine ⟨by rw [ihp, hp], iho, ?_, ?_, l, ihl, ?_, ?_⟩
      · rw [ihoc]
        congr 1
        omega
      · rw [List.length_append, ihlen, hout]
        simp
        omega
      · rw [ihllen]
        simp
        omega
      · refine Or.inr ⟨Nat.succ_pos j, ?_⟩
        rcases ihlast with ⟨hj0, hnil, hlrs⟩ | ⟨hjpos, hlast⟩
        · subst hj0
          rw [hnil, hout, hlrs]
          simp [jsonDumps]
        · have hne : (runTrace s.roll.sys (List.replicate j .roll)).2 ≠ [] := by
            intro hnil
            rw [hnil] at ihlen
            simp at ihlen
            omega
          rw [List.getLast?_append_of_ne_nil _ hne, hlast, hp,
            show c + 1 + j = c + (j + 1) from by omega]

/-- C6: a single `SaveZonkHand` attached alone to one subject has
`count = K` after `K` notifications (one `start` plus `K - 1` rolls),
and the `K`-th emitted record carries the subject's player, sequence
`K`, and the serialization of the whole `rolls` log (of length `K`) at
that moment. -/
theorem C6_save_counter (s : ZonkHandHistory) (i k : Nat) (hk : 1 ≤ k)
    (hobs : s.observers = [i]) (hst : s.obsState i = SaveZonkHand.init) :
    (runTrace s (.start :: List.replicate (k - 1) .roll)).1.obsState i
      = .save k ∧
    (runTrace s (.start :: List.replicate (k - 1) .roll)).2.length = k ∧
    ∃ l, (runTrace s (.start :: List.replicate (k - 1) .roll)).1.rolls
        = some l ∧
      l.length = k ∧
      (runTrace s (.start :: List.replicate (k - 1) .roll)).2.getLast? =
        some (.save ⟨s.player, k, jsonDumps l⟩) := by
  obtain ⟨hp, ho, hoc, hrl, hout⟩ := start_single_save s i 0 hobs hst
  rw [runTrace_cons]
  have hrcall : (runCall s .start) = s.start := rfl
  rw [hrcall]
  obtain ⟨ihp, iho, ihoc, ihlen, l, ihl, ihllen, ihlast⟩ :=
    runTrace_replicate_roll_save (k - 1) s.start.sys i 1
      [s.dice_set.roll.dice] ho hoc hrl
  refine ⟨?_, ?_, l, ihl, ?_, ?_⟩
  · rw [ihoc]
    congr 1
    omega
  · rw [List.length_append, ihlen, hout]
    simp
    omega
  · rw [ihllen]
    simp
    omega
  · rcases ihlast with ⟨hj0, hnil, hlrs⟩ | ⟨hjpos, hlast⟩
    · have hk1 : k = 1 := by omega
      subst hk1
      rw [hnil, hout, hlrs]
      simp
    · have hne : (runTrace s.start.sys (List.replicate (k - 1) .roll)).2 ≠ [] := by
        intro hnil
        rw [hnil] at ihlen
        simp at ihlen
        omega
      rw [List.getLast?_append_of_ne_nil _ hne, hlast, hp,
        show 1 + (k - 1) = k from by omega]

theorem removeFirst_of_not_mem :
    ∀ (l : List Nat) (o : Nat), o ∉ l →
      ZonkHandHistory.removeFirst l o = none
  | [], _, _ => rfl
  | x :: xs, o, h => by
      have hx : x ≠ o := fun hh => h (hh ▸ List.mem_cons_self x xs)
      have hrec := removeFirst_of_not_mem xs o
        (fun hh => h (List.mem_cons_of_mem x hh))
      simp [ZonkHandHistory.removeFirst, hx, hrec]

theorem removeFirst_append :
    ∀ (pre : List Nat) (i : Nat) (post : List Nat), i ∉ pre →
      ZonkHandHistory.removeFirst (pre ++ i :: post) i = some (pre ++ post)
  | [], i, post, _ => by simp [ZonkHandHistory.removeFirst]
  | x :: pre, i, post, hpre => by
      have hx : x ≠ i := fun h => hpre (h ▸ List.mem_cons_self x pre)
      have hrec := removeFirst_append pre i post
        (fun h => hpre (List.mem_cons_of_mem x h))
      simp [ZonkHandHistory.removeFirst, hx, hrec]

theorem removeFirst_count :
    ∀ (l : List Nat) (i : Nat) (l' : List Nat),
      ZonkHandHistory.removeFirst l i = some l' →
      l'.count i + 1 = l.count i
  | [], _, _, h => by cases h
  | x :: xs, i, l', h => by
      by_cases hx : x = i
      · rw [ZonkHandHistory.removeFirst, if_pos hx] at h
        subst hx
        rw [← Option.some_inj.mp h]
        simp [List.count_cons]
      · rw [ZonkHandHistory.removeFirst, if_neg hx] at h
        cases hh : ZonkHandHistory.removeFirst xs i with
        | none =>
            rw [hh] at h
            cases h
        | some l2 =>
            rw [hh] at h
            have hl : x :: l2 = l' := Option.some_inj.mp (by simpa using h)
            have ihc := removeFirst_count xs i l2 hh
            rw [← hl]
            simp [List.count_cons, hx, ihc]

theorem notifyGo_invoked_mem (p : String) (rolls : List Hand) :
    ∀ (obs : List Nat) (st : Nat → ObsState) (j : Nat),
      j ∈ (notifyGo p rolls obs st).invoked → j ∈ obs
  | [], st, j, h => by simp [notifyGo] at h
  | i :: rest, st, j, h => by
      rw [notifyGo] at h
      cases hcall : obsCall (st i) p rolls with
      | error e =>
          rw [hcall] at h
          simp at h
          simp [h]
      | ok v =>
          rw [hcall] at h
          simp only at h
          rcases List.mem_cons.mp h with hj | hj
          · simp [hj]
          · exact List.mem_cons_of_mem i
              (notifyGo_invoked_mem p rolls rest (updMap st i v.1) j hj)

/-- C7: the method `detach` removes exactly the first occurrence of the given
observer identity; when the identity is not registered it fails with
the NotFound condition (no new registration list is produced); and when
the identity was registered exactly once, it is absent after `detach`
and is never invoked in a subsequent notification round. -/
theorem C7_detach (s : ZonkHandHistory) (i : Nat) :
    (∀ pre post, s.observers = pre ++ i :: post → i ∉ pre →
       s.detach i = .ok { s with observers := pre ++ post }) ∧
    (i ∉ s.observers → s.detach i = .error ()) ∧
    (∀ s', s.detach i = .ok s' → s'.observers.count i + 1
       = s.observers.count i) ∧
    (∀ s', s.detach i = .ok s' → s.observers.count i = 1 →
       i ∉ s'.observers ∧
       ∀ p rolls, i ∉ (notifyGo p rolls s'.observers s'.obsState).invoked) := by
  refine ⟨?_, ?_, ?_, ?_⟩
  · intro pre post hobs hpre
    rw [ZonkHandHistory.detach, hobs, removeFirst_append pre i post hpre]
  · intro hmem
    rw [ZonkHandHistory.detach, removeFirst_of_not_mem s.observers i hmem]
  · intro s' hok
    rw [ZonkHandHistory.detach] at hok
    cases hh : ZonkHandHistory.removeFirst s.observers i with
    | none =>
        rw [hh] at hok
        cases hok
    | some l =>
        rw [hh] at hok
        have : s'.observers = l := by
          have := Except.ok.inj hok
          rw [← this]
        rw [this]
        exact removeFirst_count s.observers i l hh
  · intro s' hok hcount
    rw [ZonkHandHistory.detach] at hok
    cases hh : ZonkHandHistory.removeFirst s.observers i with
    | none =>
        rw [hh] at hok
        cases hok
    | some l =>
        rw [hh] at hok
        have hobs : s'.observers = l := by
          have := Except.ok.inj hok
          rw [← this]
        have hc := removeFirst_count s.observers i l hh
        rw [hcount] at hc
        have hnotmem : i ∉ s'.observers := by
          rw [hobs]
          rw [← List.count_pos_iff]
          omega
        refine ⟨hnotmem, fun p rolls hmem => ?_⟩
        exact hnotmem (notifyGo_invoked_mem p rolls s'.observers s'.obsState i hmem)

theorem notifyGo_fail (p : String) (rolls : List Hand) (hr : rolls ≠ []) :
    ∀ (pre : List Nat) (st : Nat → ObsState) (f : Nat) (post : List Nat),
      (∀ i ∈ pre, st i ≠ .failing) → st f = .failing →
      (notifyGo p rolls (pre ++ f :: post) st).invoked = pre ++ [f] ∧
      (notifyGo p rolls (pre ++ f :: post) st).raised = true
  | [], st, f, post, _, hf => by
      simp only [List.nil_append]
      rw [notifyGo, hf]
      exact ⟨rfl, rfl⟩
  | j :: pre, st, f, post, hnf, hf => by
      obtain ⟨os', out, hcall, hos'⟩ :=
        obsCall_ok_of_notFailing (st j) p rolls (hnf j (by simp)) hr
      have hpre : ∀ i ∈ pre, updMap st j os' i ≠ ObsState.failing := by
        intro i hi
        by_cases hij : i = j
        · simpa [updMap, hij] using hos'
        · simpa [updMap, hij] using hnf i (by simp [hi])
      have hfj : f ≠ j := by
        intro hfj
        exact hnf j (by simp) (hfj ▸ hf)
      have hf' : updMap st j os' f = .failing := by
        simpa [updMap, hfj] using hf
      have ih := notifyGo_fail p rolls hr pre (updMap st j os') f post hpre hf'
      rw [List.cons_append]
      rw [notifyGo, hcall]
      exact ⟨by simp [ih.1], by simp [ih.2]⟩

/-- C8: when a registered observer raises during the notification round
triggered by `start()` or by `roll()`, the exception propagates to the
caller of that call (no hand is returned), the observers after it in
the registration list are not invoked in that round, and the
already-written hand stays in `rolls` (no rollback): the appended hand
after `roll`, the fresh single-hand log after `start`. -/
theorem C8_observer_raise (s : ZonkHandHistory) (rs : List Hand)
    (f : Nat) (pre post : List Nat)
    (hrs : s.rolls = some rs)
    (hobs : s.observers = pre ++ f :: post)
    (hpre : ∀ i ∈ pre, s.obsState i ≠ .failing)
    (hf : s.obsState f = .failing) :
    (s.roll.raised = true ∧
     s.roll.ret = none ∧
     s.roll.invoked = pre ++ [f] ∧
     s.roll.sys.rolls = some (rs ++ [s.dice_set.roll.dice])) ∧
    (s.start.raised = true ∧
     s.start.ret = none ∧
     s.start.invoked = pre ++ [f] ∧
     s.start.sys.rolls = some [s.dice_set.roll.dice]) := by
  constructor
  · have h := notifyGo_fail s.player (rs ++ [s.dice_set.roll.dice]) (by simp)
      pre s.obsState f post hpre hf
    rw [← hobs] at h
    refine ⟨?_, ?_, ?_, ?_⟩
    · simpa [ZonkHandHistory.roll, hrs] using h.2
    · simp [ZonkHandHistory.roll, hrs, h.2]
    · simpa [ZonkHandHistory.roll, hrs] using h.1
    · simp [ZonkHandHistory.roll, hrs]
  · have h := notifyGo_fail s.player [s.dice_set.roll.dice] (by simp)
      pre s.obsState f post hpre hf
    rw [← hobs] at h
    refine ⟨?_, ?_, ?_, ?_⟩
    · simpa [ZonkHandHistory.start] using h.2
    · simp [ZonkHandHistory.start, h.2]
    · simpa [ZonkHandHistory.start] using h.1
    · simp [ZonkHandHistory.start]

/-- C9: calling `roll()` before any `start()` raises (`rolls` is an
uninitialized attribute): the call fails, no hand is recorded, nothing
is returned, and no observer is invoked or notified. -/
theorem C9_roll_before_start (s : ZonkHandHistory) (h : s.rolls = none) :
    s.roll.raised = true ∧
    s.roll.ret = none ∧
    s.roll.sys.rolls = none ∧
    s.roll.invoked = [] ∧
    s.roll.outputs = [] := by
  refine ⟨?_, ?_, ?_, ?_, ?_⟩ <;> simp [ZonkHandHistory.roll, h]

theorem foldl_attach_obsState (seq : List Nat) :
    ∀ s : ZonkHandHistory,
      (seq.foldl ZonkHandHistory.attach s).obsState = s.obsState := by
  induction seq with
  | nil => simp
  | cons j rest ih =>
      intro s
      simp [List.foldl_cons, ih, ZonkHandHistory.attach]

/-- C10: a freshly constructed `ThreePairZonkHand` has `zonked = False`,
and it stays `False` under any sequence of attach calls (which notify
nobody), until a first `start()`/`roll()` notification arrives. -/
theorem C10_fresh_zonked_false (s : ZonkHandHistory) (i : Nat)
    (seq : List Nat) (hst : s.obsState i = ThreePairZonkHand.init) :
    ObsState.zonked? ThreePairZonkHand.init = some false ∧
    ((seq.foldl ZonkHandHistory.attach s).obsState i).zonked? = some false := by
  refine ⟨rfl, ?_⟩
  rw [foldl_attach_obsState seq s, hst]
  rfl

theorem C3_notify_after_append_witness :
    sampleDetector.start.sys.rolls = some [[1,1,2,3,6,6]] ∧
    sampleDetector.start.invoked = [2] ∧
    sampleDetector.start.raised = false ∧
    sampleDetector.start.sys.obsState 2 = .threePair false := by
  have h := C3_notify_after_append sampleDetector
    (by intro i hi; simp [sampleDetector])
  refine ⟨by simpa using h.1.1, h.1.2.1, h.1.2.2.1, ?_⟩
  have h2 := h.1.2.2.2.2 2 (by simp [sampleDetector]) false rfl
  simpa [show threePairTest [1,1,2,3,6,6] = false from by decide] using h2

theorem C4_append_only_log_witness :
    sampleActive.roll.sys.rolls =
      some [[1,1,2,3,6,6], [1,1,2,3,6,6]] := by
  simpa using (C4_append_only_log sampleActive 0).1 [[1,1,2,3,6,6]] rfl

theorem C5_restart_resets_witness :
    sampleActive.start.sys.rolls = some [[1,1,2,3,6,6]] ∧
    sampleActive.start.ret = some [1,1,2,3,6,6] := by
  have h := C5_restart_resets sampleActive [[1,1,2,3,6,6]] rfl (by decide)
  refine ⟨by simpa using h.2.1, ?_⟩
  simpa using h.2.2.2 rfl

theorem C6_save_counter_witness :
    (runTrace sampleSave (.start :: List.replicate 1 .roll)).1.obsState 5
      = .save 2 ∧
    (runTrace sampleSave (.start :: List.replicate 1 .roll)).2.length = 2 := by
  have h := C6_save_counter sampleSave 5 2 (by decide) rfl rfl
  exact ⟨h.1, h.2.1⟩

theorem C7_detach_witness :
    sampleMock.detach 3 = .ok { sampleMock with observers := [] } ∧
    sampleFresh.detach 9 = .error () := by
  constructor
  · simpa using (C7_detach sampleMock 3).1 [] [] rfl (by simp)
  · exact (C7_detach sampleFresh 9).2.1 (by simp [sampleFresh])

theorem C8_observer_raise_witness :
    sampleFailing.roll.raised = true ∧
    sampleFailing.roll.invoked = [3, 7] ∧
    sampleFailing.roll.sys.rolls =
      some [[1,1,2,3,6,6], [1,1,2,3,6,6]] ∧
    sampleFailing.start.raised = true ∧
    sampleFailing.start.ret = none ∧
    sampleFailing.start.invoked = [3, 7] ∧
    sampleFailing.start.sys.rolls = some [[1,1,2,3,6,6]] := by
  have h := C8_observer_raise sampleFailing [[1,1,2,3,6,6]] 7 [3] []
    rfl rfl (by intro i hi; simp [sampleFailing] at hi; subst hi; decide) rfl
  exact ⟨h.1.1, by simpa using h.1.2.2.1, by simpa using h.1.2.2.2,
    h.2.1, h.2.2.1, by simpa using h.2.2.2.1, by simpa using h.2.2.2.2⟩

theorem C9_roll_before_start_witness :
    sampleFresh.roll.raised = true ∧ sampleFresh.roll.ret = none := by
  have h := C9_roll_before_start sampleFresh rfl
  exact ⟨h.1, h.2.1⟩

theorem C10_fresh_zonked_false_witness :
    ((([4] : List Nat).foldl ZonkHandHistory.attach sampleDetector).obsState 2).zonked?
      = some false :=
  (C10_fresh_zonked_false sampleDetector 2 [4] rfl).2
